import Mathlib

set_option maxHeartbeats 1000000

/-!
Shallow embedding of src/minesweeper.js (class Minefield) and proofs about it.
Cells are modelled as a list of records; the JS in-place field writes become
functional updates.  Loops whose termination the source leaves implicit
(the flood-fill work stack and the deduction fixed points) take explicit fuel
and return an error value when it runs out.
-/

/-- Cell record of src/minesweeper.js: the four per-cell state fields. -/
structure Cell where
  mines : Nat
  isMine : Bool
  isOpen : Bool
  isFlagged : Bool
  deriving Repr, DecidableEq

/-- Initial cell value assigned by the constructor. -/
def Cell.init : Cell := ⟨0, false, false, false⟩

/-- Minefield object of src/minesweeper.js: dimensions, the stored cell and
mine counts, and the indexed cells (the dynamic integer properties of the JS
object, modelled as a list). -/
structure Minefield where
  width : Nat
  height : Nat
  cells : Nat
  mines : Nat
  grid : List Cell
  deriving Repr, DecidableEq

namespace Minefield

/-- Cell read this[i].  Source call sites always use indexes below cells. -/
def get (m : Minefield) (i : Nat) : Cell := m.grid.getD i Cell.init

/-- In-place mutation of one cell, as a functional update. -/
def modifyCell (m : Minefield) (i : Nat) (f : Cell → Cell) : Minefield :=
  { m with grid := m.grid.set i (f (m.get i)) }

/-- this[i].isOpen = b -/
def setOpen (m : Minefield) (i : Nat) (b : Bool) : Minefield :=
  m.modifyCell i (fun c => { c with isOpen := b })

/-- this[i].isFlagged = b -/
def setFlagged (m : Minefield) (i : Nat) (b : Bool) : Minefield :=
  m.modifyCell i (fun c => { c with isFlagged := b })

/-- this[i].isMine = b -/
def setMine (m : Minefield) (i : Nat) (b : Bool) : Minefield :=
  m.modifyCell i (fun c => { c with isMine := b })

/-- this[i].mines++ -/
def bumpMines (m : Minefield) (i : Nat) : Minefield :=
  m.modifyCell i (fun c => { c with mines := c.mines + 1 })

/-- Neighbor enumeration shared by getNearbyCells and the constructor-local
minefieldGetNearbyCells, in source push order.  The guards mirror the first
and last row and column tests of the source. -/
def nearbyList (w h cell : Nat) (includeSelf : Bool) : List Nat :=
  let x := cell % w
  let y := cell / w
  let isNotFirstRow := 0 < y
  let isNotLastRow := y < h - 1
  (if includeSelf then [cell] else [])
  ++ (if isNotFirstRow then [cell - w] else [])
  ++ (if isNotLastRow then [cell + w] else [])
  ++ (if 0 < x then
        [cell - 1]
        ++ (if isNotFirstRow then [cell - w - 1] else [])
        ++ (if isNotLastRow then [cell + w - 1] else [])
      else [])
  ++ (if x < w - 1 then
        [cell + 1]
        ++ (if isNotFirstRow then [cell - w + 1] else [])
        ++ (if isNotLastRow then [cell + w + 1] else [])
      else [])

/-- Method getNearbyCells of the Minefield class. -/
def getNearbyCells (m : Minefield) (cell : Nat) (includeSelf : Bool := false) :
    List Nat :=
  nearbyList m.width m.height cell includeSelf

/-- Inner loop bumping the nearby-mines counter of every listed index. -/
def bumpAll (m : Minefield) (l : List Nat) : Minefield := l.foldl bumpMines m

/-- Constructor branch for an explicit mine-placement array: flags each listed
cell as a mine and bumps the counters of its neighbors including itself. -/
def constructExplicit (w h : Nat) (minesArr : List Nat) : Minefield :=
  let cellCount := w * h
  let base : Minefield :=
    { width := w, height := h, cells := cellCount, mines := minesArr.length,
      grid := List.replicate cellCount Cell.init }
  minesArr.foldl
    (fun m idx => (m.setMine idx true).bumpAll (nearbyList w h idx true)) base

/-- One Knuth-Fisher-Yates swap: [this[i], this[j]] = [this[j], this[i]]. -/
def swapCells (m : Minefield) (i j : Nat) : Minefield :=
  let a := m.get i
  let b := m.get j
  (m.modifyCell i (fun _ => b)).modifyCell j (fun _ => a)

/-- Shuffle loop running i from cells-1 down to 1; choices models the values
Math.floor(randomizer() * (i+1)) drawn for each i. -/
def shuffleAux (choices : Nat → Nat) : Minefield → Nat → Minefield
  | m, 0 => m
  | m, i + 1 => shuffleAux choices (m.swapCells (i + 1) (choices (i + 1))) i

/-- Constructor branch for a numeric mine count: first cells are mines, then a
shuffle, then the counter pass over every mine including itself. -/
def constructShuffle (w h mineCount : Nat) (choices : Nat → Nat) : Minefield :=
  let cellCount := w * h
  let base : Minefield :=
    { width := w, height := h, cells := cellCount, mines := mineCount,
      grid := (List.range cellCount).map
        (fun i => { mines := 0, isMine := decide (i < mineCount),
                    isOpen := false, isFlagged := false }) }
  let shuffled := shuffleAux choices base (cellCount - 1)
  (List.range cellCount).foldl
    (fun m i => if (m.get i).isMine then m.bumpAll (nearbyList w h i true) else m)
    shuffled

/-- Method resetMines: zero every counter, then re-add one per mine to the
mine's neighborhood including itself (getNearbyCells(i, true)). -/
def resetMines (m : Minefield) : Minefield :=
  let zeroed := (List.range m.cells).foldl
    (fun mm i => mm.modifyCell i (fun c => { c with mines := 0 })) m
  (List.range m.cells).foldl
    (fun mm i =>
      if (mm.get i).isMine then mm.bumpAll (mm.getNearbyCells i true) else mm)
    zeroed

/-- Method isNew: no cell is open. -/
def isNew (m : Minefield) : Bool :=
  (List.range m.cells).all (fun i => !(m.get i).isOpen)

/-- Method isGoingOn: no opened mine, some open cell, some closed non-mine. -/
def isGoingOn (m : Minefield) : Bool :=
  ((List.range m.cells).all (fun i => !((m.get i).isOpen && (m.get i).isMine)))
  && ((List.range m.cells).any (fun i => (m.get i).isOpen))
  && ((List.range m.cells).any (fun i => !(m.get i).isOpen && !(m.get i).isMine))

/-- Method isOver: an opened mine exists, or no closed non-mine remains. -/
def isOver (m : Minefield) : Bool :=
  ((List.range m.cells).any (fun i => (m.get i).isOpen && (m.get i).isMine))
  || !((List.range m.cells).any (fun i => !(m.get i).isOpen && !(m.get i).isMine))

/-- Method isCleared: every non-mine is open and no mine is open. -/
def isCleared (m : Minefield) : Bool :=
  (List.range m.cells).all (fun i =>
    !(!(m.get i).isOpen && !(m.get i).isMine)
    && !((m.get i).isOpen && (m.get i).isMine))

/-- Method isLost: some mine is open. -/
def isLost (m : Minefield) : Bool :=
  (List.range m.cells).any (fun i => (m.get i).isOpen && (m.get i).isMine)

/-- Getter usedFlags: number of flagged cells. -/
def usedFlags (m : Minefield) : Nat :=
  ((List.range m.cells).filter (fun i => (m.get i).isFlagged)).length

end Minefield

namespace Minefield

/-- Append-if-new, modelling insertion into a JS Set (insertion order kept). -/
def insertOnce (l : List Nat) (x : Nat) : List Nat :=
  if l.contains x then l else l ++ [x]

/-- Upward slide of the flood fill: while (curCell >= 0 && mines == 0)
curCell -= widthIndex.  The internal fuel suffices whenever 1 <= w. -/
def slideLoop (m : Minefield) (w : Nat) : Nat → Int → Int
  | 0, cur => cur
  | f + 1, cur =>
    if 0 ≤ cur ∧ (m.get cur.toNat).mines = 0 then slideLoop m w f (cur - w)
    else cur

/-- Top of the run containing cell: the slide loop followed by += widthIndex. -/
def slideUp (m : Minefield) (w : Nat) (cell : Nat) : Int :=
  slideLoop m w (cell + 2) cell + w

/-- One side check of the walk: possibly push the horizontal neighbor nb and
update the corresponding reach flag, exactly as in the source's left and right
blocks. -/
def stepSide (m : Minefield) (nb : Nat) (guard : Prop) [Decidable guard]
    (full top : List Nat) (reach : Bool) : List Nat × Bool :=
  if guard then
    if (m.get nb).mines = 0 ∧ ¬ full.contains nb then
      if reach then (top, reach) else (nb :: top, true)
    else if reach then (top, false) else (top, reach)
  else (top, reach)

/-- Downward walk of the flood fill: adds the zero-count column run to the
full stack, pushing left and right seeds guarded by reachLeft and reachRight.
The internal fuel suffices whenever 1 <= w. -/
def walkDown (m : Minefield) (w : Nat) :
    Nat → Nat → List Nat → List Nat → Bool → Bool → List Nat × List Nat
  | 0, _, full, top, _, _ => (full, top)
  | f + 1, cur, full, top, reachL, reachR =>
    if cur < m.cells ∧ (m.get cur).mines = 0 then
      let full2 := insertOnce full cur
      let sL := stepSide m (cur - 1) (0 < cur % w) full2 top reachL
      let sR := stepSide m (cur + 1) (cur % w < w - 1) full2 sL.1 reachR
      walkDown m w f (cur + w) full2 sR.1 sL.2 sR.2
    else (full, top)

/-- Outer flood-fill loop over the work stack (head of the list is the top of
the JS array, which pushes and pops at its end). -/
def floodLoop (m : Minefield) (w : Nat) : Nat → List Nat → List Nat → Option (List Nat)
  | 0, _, _ => none
  | _ + 1, [], full => some full
  | f + 1, c :: rest, full =>
    let start := (slideUp m w c).toNat
    let res := walkDown m w (m.cells + 1) start full rest false false
    floodLoop m w f res.2 res.1

/-- Method getEmptyZone: flood fill of the zero-count region, then the margin
pass; with includeFlags false, flagged cells are dropped from the region and
excluded from the margin. -/
def getEmptyZone (m : Minefield) (cell : Nat) (includeFlags : Bool) (fuel : Nat) :
    Option (List Nat) := do
  let w := m.width
  if (m.get cell).mines ≠ 0 then pure []
  else do
    let full ← floodLoop m w fuel [cell] []
    if includeFlags then
      let margin := full.foldl (fun mar c =>
        (m.getNearbyCells c false).foldl (fun mar2 j =>
          if (m.get j).mines ≠ 0 then insertOnce mar2 j else mar2) mar) []
      pure (full ++ margin)
    else
      let margin := full.foldl (fun mar c =>
        (m.getNearbyCells c false).foldl (fun mar2 j =>
          if (m.get j).mines ≠ 0 ∧ (m.get j).isFlagged = false
          then insertOnce mar2 j else mar2) mar) []
      pure (full.filter (fun c => !(m.get c).isFlagged) ++ margin)

/-- Body of the openIfEmptyZone closure: open every zone cell and record it. -/
def applyZone (st : Minefield) (upd : List Nat) (zone : List Nat) :
    Minefield × List Nat :=
  zone.foldl (fun p e => (p.1.setOpen e true, p.2 ++ [e])) (st, upd)

/-- Closure openIfEmptyZone of openCell. -/
def openIfEmptyZone (st : Minefield) (upd : List Nat) (c : Nat) (fuel : Nat) :
    Option (Minefield × List Nat) := do
  let zone ← st.getEmptyZone c false fuel
  pure (applyZone st upd zone)

/-- First-click relocation scan: first i with !isMine and i != cell. -/
def findRelocate (m : Minefield) (cell : Nat) : Option Nat :=
  (List.range m.cells).find? (fun i => !(m.get i).isMine && i != cell)

/-- Body of the chord-opening loop of openCell: one nearby cell is examined
and opened (cascading through openIfEmptyZone when it is not a mine). -/
def chordStep (fuel : Nat) (p : Minefield × List Nat) (j : Nat) :
    Option (Minefield × List Nat) := do
  let st := p.1
  if (st.get j).isFlagged = false ∧ (st.get j).isOpen = false then
    let st2 := st.setOpen j true
    let upd2 := p.2 ++ [j]
    if (st2.get j).isMine = false then
      openIfEmptyZone st2 upd2 j fuel
    else pure (st2, upd2)
  else pure p

/-- Method openCell.  The firstclick parameter defaults to isNew() at JS call
sites; the caller passes it explicitly here. -/
def openCell (m : Minefield) (cell : Nat) (firstclick : Bool) (fuel : Nat) :
    Option (List Nat × Minefield) := do
  if (m.get cell).isOpen = false then
    let st := m.setOpen cell true
    let upd := [cell]
    if (st.get cell).isMine then
      if firstclick then
        let st2 := st.setMine cell false
        let st3 := match st2.findRelocate cell with
          | some i => st2.setMine i true
          | none => st2
        let st4 := st3.resetMines
        let res ← openIfEmptyZone st4 upd cell fuel
        pure (res.2, res.1)
      else pure (upd, st)
    else
      let res ← openIfEmptyZone st upd cell fuel
      pure (res.2, res.1)
  else if (m.get cell).mines ≠ 0 then
    let nearby := m.getNearbyCells cell false
    let flagCount := (nearby.filter (fun j => (m.get j).isFlagged)).length
    if flagCount = (m.get cell).mines then
      let res ← nearby.foldlM (chordStep fuel) (m, [])
      pure (res.2, res.1)
    else pure ([], m)
  else pure ([], m)

end Minefield

namespace Minefield

/-- Function validateNumber of the source, on integer inputs: with a
non-negative minimum the value is replaced by its absolute value, then range
errors are raised. -/
def validateNumber (num : Int) (lo hi : Option Int) : Except String Int :=
  let num2 : Int := match lo with
    | some mn => if 0 ≤ mn then (num.natAbs : Int) else num
    | none => num
  let tooSmall : Bool := match lo with | some mn => decide (num2 < mn) | none => false
  let tooBig : Bool := match hi with | some mx => decide (mx < num2) | none => false
  if tooSmall then Except.error "Parameter value is too small"
  else if tooBig then Except.error "Parameter value is too big"
  else Except.ok num2

/-- Constructor entry for a numeric mine count: the argument validation of the
source followed by the shuffle construction. -/
def buildNumeric (w h mineCount : Int) (choices : Nat → Nat) :
    Except String Minefield := do
  let w2 ← validateNumber w (some 0) none
  let h2 ← validateNumber h (some 0) none
  let cellCount := w2 * h2
  let m2 ← validateNumber mineCount (some 0) (some cellCount)
  pure (constructShuffle w2.toNat h2.toNat m2.toNat choices)

/-- Modelled from the spec (claim C3 wording): the connected zero-count region
containing the seed computed without adding or traversing flagged cells, as a
closure under the 8-neighbor adjacency, iterated to a fixed point. -/
def specZeroRegionNoFlags (m : Minefield) (seed : Nat) : List Nat :=
  let expand := fun (s : List Nat) =>
    s ++ (List.range m.cells).filter (fun j =>
      !s.contains j && (m.get j).mines == 0 && !(m.get j).isFlagged
      && s.any (fun i => (m.getNearbyCells i false).contains j))
  Nat.rec [seed] (fun _ s => expand s) m.cells

/-- Modelled from the spec (claim C3 wording): the region plus the non-zero
unflagged cells bordering it. -/
def specEmptyZoneNoFlags (m : Minefield) (seed : Nat) : List Nat :=
  let region := specZeroRegionNoFlags m seed
  region ++ (List.range m.cells).filter (fun j =>
    (m.get j).mines != 0 && !(m.get j).isFlagged
    && region.any (fun i => (m.getNearbyCells i false).contains j))

end Minefield

open Minefield

/-- C1 counterexample: on the 1-row 2-column grid with the single hazard
explicitly placed at index 0, the constructor stores adjacent-mines count 1 at
cell 0 (it counts the cell itself), while the number of hazards among cell 0's
neighbors excluding itself is 0 — so the claimed invariant is false after
construction. -/
theorem c1_counterexample :
    ((constructExplicit 2 1 [0]).get 0).mines = 1 ∧
    (((constructExplicit 2 1 [0]).getNearbyCells 0 false).filter
        (fun j => ((constructExplicit 2 1 [0]).get j).isMine)).length = 0 := by
  decide

/-- C3 counterexample: on a 1-row 3-column grid with no hazards and cell 1
flagged, getEmptyZone(0) in default mode returns [0, 2]: it traverses through
the flagged zero-count cell 1 to reach cell 2, while the claimed closure that
neither adds nor traverses flagged cells contains only cell 0. -/
theorem c3_counterexample :
    getEmptyZone ((constructExplicit 3 1 []).setFlagged 1 true) 0 false 99
      = some [0, 2] ∧
    ¬ (2 ∈ specEmptyZoneNoFlags ((constructExplicit 3 1 []).setFlagged 1 true) 0) := by
  decide

/-- C4 counterexample: 1-row 5-column grid, hazard at 3; opening cell 0 first
opens cells 0..2, then opening the hazard cell 3 with firstclick true relocates
the hazard to cell 0 — an already open cell — although the first closed
still-non-hazard cell is index 4, which stays hazard-free.  The claim that the
hazard moves to the first closed non-hazard cell is therefore false. -/
theorem c4_counterexample :
    ((openCell (constructExplicit 5 1 [3]) 0 true 99).bind
        (fun p => openCell p.2 3 true 99)).map
      (fun p => ((p.2.get 0).isMine, (p.2.get 0).isOpen, (p.2.get 4).isMine))
      = some (true, true, false) := by
  decide

/-- C5 counterexample: opening cell 0 of a mine-free 1-by-1 grid returns the
array [0, 0] — the just-opened cell is recorded again by the empty-zone pass,
so the returned array contains a duplicate entry, contradicting the claim. -/
theorem c5_counterexample :
    (openCell (constructExplicit 1 1 []) 0 true 9).map Prod.fst = some [0, 0] ∧
    ¬ ([0, 0] : List Nat).Nodup := by
  decide

/-- C6 counterexample: on the 1-by-5 grid with the hazard at index 4, opening
index 0 as the first move leaves a position where isCleared() returns true and
isGoingOn() returns false — the opposite of the claimed values. -/
theorem c6_counterexample :
    ((openCell (constructExplicit 5 1 [4]) 0 true 99).map
        (fun p => (p.2.isCleared, p.2.isGoingOn))) = some (true, false) := by
  decide

/-- C6 amended: the reveal does cascade to open exactly indices 0..3 and leaves
index 4 closed, but the resulting state is cleared: isCleared() returns true,
isGoingOn() returns false (and the game counts as over). -/
theorem c6_amended :
    (constructExplicit 5 1 [4]).isNew = true ∧
    ((openCell (constructExplicit 5 1 [4]) 0 true 99).map
        (fun p => ((List.range 5).filter (fun i => (p.2.get i).isOpen),
                   p.2.isCleared, p.2.isGoingOn, p.2.isOver)))
      = some ([0, 1, 2, 3], true, false, true) := by
  decide

/-- C9 counterexample: the constructor accepts width 0 (and, via the absolute
value taken by validateNumber, a negative width as well) without raising any
error, contradicting the claim that non-positive dimensions are rejected. -/
theorem c9_counterexample :
    (buildNumeric 0 5 0 (fun _ => 0)).isOk = true ∧
    (buildNumeric (-3) 5 2 (fun _ => 0)).isOk = true := by
  decide

/-- Validation with minimum 0 and no maximum always succeeds with the
absolute value of the argument. -/
theorem validateNumber_abs (num : Int) :
    validateNumber num (some 0) none = Except.ok (num.natAbs : Int) := by
  simp [validateNumber]

/-- Validation with minimum 0 and a maximum succeeds with the absolute value
unless it exceeds the maximum. -/
theorem validateNumber_abs_max (num mx : Int) :
    validateNumber num (some 0) (some mx) =
      if mx < (num.natAbs : Int) then Except.error "Parameter value is too big"
      else Except.ok (num.natAbs : Int) := by
  by_cases hc : mx < (num.natAbs : Int) <;> simp [validateNumber, hc]

/-- C9 amended: validateNumber replaces width, height and mine count by their
absolute values (so zero and negative dimensions are accepted, negatives as
their absolute value, and no error is raised for them), and the only
constructor error for numeric arguments is the descriptive "too big" error,
raised exactly when the normalized hazard count exceeds width*height, in which
case no grid is produced. -/
theorem c9_amended (w h mc : Int) (ch : Nat → Nat) :
    buildNumeric w h mc ch =
      if mc.natAbs ≤ w.natAbs * h.natAbs
      then Except.ok (constructShuffle w.natAbs h.natAbs mc.natAbs ch)
      else Except.error "Parameter value is too big" := by
  rw [buildNumeric, validateNumber_abs, validateNumber_abs]
  show (validateNumber mc (some 0) (some ((w.natAbs : Int) * (h.natAbs : Int)))).bind _ = _
  rw [validateNumber_abs_max]
  by_cases hc : mc.natAbs ≤ w.natAbs * h.natAbs
  · rw [if_neg (by exact_mod_cast not_lt.mpr (by exact_mod_cast hc)), if_pos hc]
    rfl
  · rw [if_pos (by exact_mod_cast lt_of_not_le (by exact_mod_cast hc)), if_neg hc]
    rfl

namespace Minefield

/-- Position-level 8-adjacency: rows and columns within one, not the same cell. -/
def near8 (w a b : Nat) : Prop :=
  a ≠ b ∧ a / w ≤ b / w + 1 ∧ b / w ≤ a / w + 1 ∧ a % w ≤ b % w + 1 ∧ b % w ≤ a % w + 1

instance near8Dec (w a b : Nat) : Decidable (near8 w a b) := by
  unfold near8; infer_instance

theorem mem_ite_list {P : Prop} [Decidable P] {j : α} {l : List α} :
    j ∈ (if P then l else []) ↔ P ∧ j ∈ l := by
  split <;> simp_all

theorem map_ite_nil {P : Prop} [Decidable P] (f : α → β) (l : List α) :
    (if P then l else []).map f = if P then l.map f else [] := by
  split <;> rfl

theorem ite_congr_hyp {P : Prop} [Decidable P] {a b : List α} (h : P → a = b) :
    (if P then a else []) = (if P then b else []) := by
  split
  · exact h ‹_›
  · rfl

theorem row_col_eq_iff {w : Nat} (hw : 0 < w) (ey ex : Nat) (hex : ex < w) (j : Nat) :
    j = w * ey + ex ↔ j / w = ey ∧ j % w = ex := by
  constructor
  · rintro rfl
    refine ⟨?_, ?_⟩
    · rw [Nat.mul_add_div hw, Nat.div_eq_of_lt hex, Nat.add_zero]
    · rw [Nat.mul_add_mod, Nat.mod_eq_of_lt hex]
  · rintro ⟨h1, h2⟩
    conv_lhs => rw [← Nat.div_add_mod j w]
    rw [h1, h2]

theorem pos_lt_total {w h r col : Nat} (hr : r < h) (hcol : col < w) :
    w * r + col < w * h := by
  calc w * r + col < w * r + w := by omega
  _ = w * (r + 1) := by ring
  _ ≤ w * h := Nat.mul_le_mul_left w hr

/-- Row and column offsets corresponding to the entries of nearbyList, in the
same order. -/
def offs (y x h w : Nat) (incl : Bool) : List (Nat × Nat) :=
  (if incl = true then [(y, x)] else [])
  ++ (if 0 < y then [(y - 1, x)] else [])
  ++ (if y < h - 1 then [(y + 1, x)] else [])
  ++ (if 0 < x then
        [(y, x - 1)]
        ++ (if 0 < y then [(y - 1, x - 1)] else [])
        ++ (if y < h - 1 then [(y + 1, x - 1)] else [])
      else [])
  ++ (if x < w - 1 then
        [(y, x + 1)]
        ++ (if 0 < y then [(y - 1, x + 1)] else [])
        ++ (if y < h - 1 then [(y + 1, x + 1)] else [])
      else [])

theorem nearbyList_eq_map_offs {w h c : Nat} (hw : 0 < w) (incl : Bool) :
    nearbyList w h c incl =
      (offs (c / w) (c % w) h w incl).map (fun p => w * p.1 + p.2) := by
  simp only [nearbyList, offs]
  generalize hy : c / w = y
  generalize hx : c % w = x
  have hxw : x < w := by rw [← hx]; exact Nat.mod_lt _ hw
  have hcd : c = w * y + x := by rw [← hy, ← hx]; exact (Nat.div_add_mod c w).symm
  have e_up : 0 < y → c - w = w * (y - 1) + x := by
    intro hpos
    obtain ⟨z, rfl⟩ : ∃ z, y = z + 1 := ⟨y - 1, by omega⟩
    have hexp : w * (z + 1) = w * z + w := by ring
    simp only [Nat.add_sub_cancel]
    omega
  have e_down : c + w = w * (y + 1) + x := by
    have hexp : w * (y + 1) = w * y + w := by ring
    omega
  have e_left : 0 < x → c - 1 = w * y + (x - 1) := by
    intro hpos; omega
  have e_upleft : 0 < y → 0 < x → c - w - 1 = w * (y - 1) + (x - 1) := by
    intro hy1 hx1
    obtain ⟨z, rfl⟩ : ∃ z, y = z + 1 := ⟨y - 1, by omega⟩
    have hexp : w * (z + 1) = w * z + w := by ring
    simp only [Nat.add_sub_cancel]
    omega
  have e_downleft : 0 < x → c + w - 1 = w * (y + 1) + (x - 1) := by
    intro hx1
    have hexp : w * (y + 1) = w * y + w := by ring
    omega
  have e_right : c + 1 = w * y + (x + 1) := by omega
  have e_upright : 0 < y → c - w + 1 = w * (y - 1) + (x + 1) := by
    intro hy1
    have := e_up hy1
    omega
  have e_downright : c + w + 1 = w * (y + 1) + (x + 1) := by
    have hexp : w * (y + 1) = w * y + w := by ring
    omega
  simp only [List.map_append, map_ite_nil, List.map_cons, List.map_nil]
  congr 1
  · congr 1
    · congr 1
      · congr 1
        · exact ite_congr_hyp (fun _ => by rw [← hcd])
        · exact ite_congr_hyp (fun hpos => by rw [e_up hpos])
      · exact ite_congr_hyp (fun hpos => by rw [e_down])
    · refine ite_congr_hyp (fun hpos => ?_)
      rw [e_left hpos]
      congr 1
      · congr 1
        · exact ite_congr_hyp (fun hy1 => by rw [e_upleft hy1 hpos])
      · exact ite_congr_hyp (fun hy1 => by rw [e_downleft hpos])
  · refine ite_congr_hyp (fun hpos => ?_)
    rw [e_right]
    congr 1
    · congr 1
      · exact ite_congr_hyp (fun hy1 => by rw [e_upright hy1])
    · exact ite_congr_hyp (fun hy1 => by rw [e_downright])

theorem mem_offs_iff {y x h w : Nat} (hyh : y < h) (hxw : x < w) (incl : Bool)
    (p : Nat × Nat) :
    p ∈ offs y x h w incl ↔
      p.1 < h ∧ p.2 < w ∧ y ≤ p.1 + 1 ∧ p.1 ≤ y + 1 ∧ x ≤ p.2 + 1 ∧ p.2 ≤ x + 1 ∧
        (¬(p.1 = y ∧ p.2 = x) ∨ incl = true) := by
  obtain ⟨a, b⟩ := p
  cases incl <;>
    simp only [offs, List.mem_append, mem_ite_list, List.mem_singleton, List.mem_cons,
      List.not_mem_nil, List.singleton_append, List.cons_append, List.nil_append,
      Prod.mk.injEq, Bool.false_eq_true, Bool.true_eq_false, false_and, and_false,
      or_false, false_or, eq_self_iff_true, and_true, true_and, not_false_eq_true,
      or_true] <;>
    omega

set_option maxHeartbeats 2000000 in
theorem offs_nodup (y x h w : Nat) (incl : Bool) : (offs y x h w incl).Nodup := by
  unfold offs
  split_ifs <;>
    (try simp only [List.singleton_append, List.cons_append, List.nil_append,
      List.append_nil, List.nodup_cons, List.mem_cons, List.mem_singleton, List.not_mem_nil,
      List.nodup_nil, Prod.mk.injEq, not_or, or_false, false_or, not_false_eq_true,
      and_true, true_and]) <;>
    omega

end Minefield

namespace Minefield

theorem div_lt_of_lt_mul {w h c : Nat} (hw : 0 < w) (hc : c < w * h) : c / w < h :=
  Nat.div_lt_of_lt_mul hc

theorem mem_nearbyList_lt {w h c j : Nat} (hw : 0 < w) (hc : c < w * h) {incl : Bool}
    (hj : j ∈ nearbyList w h c incl) : j < w * h := by
  rw [nearbyList_eq_map_offs hw, List.mem_map] at hj
  obtain ⟨p, hp, rfl⟩ := hj
  rw [mem_offs_iff (div_lt_of_lt_mul hw hc) (Nat.mod_lt _ hw)] at hp
  exact pos_lt_total hp.1 hp.2.1

theorem nearbyList_nodup {w h c : Nat} (hw : 0 < w) (hc : c < w * h) (incl : Bool) :
    (nearbyList w h c incl).Nodup := by
  rw [nearbyList_eq_map_offs hw]
  refine List.Nodup.map_on ?_ (offs_nodup _ _ _ _ _)
  intro p1 h1 p2 h2 heq
  rw [mem_offs_iff (div_lt_of_lt_mul hw hc) (Nat.mod_lt _ hw)] at h1 h2
  have d1 := (row_col_eq_iff hw p1.1 p1.2 h1.2.1 _).1 rfl
  have d2 := (row_col_eq_iff hw p2.1 p2.2 h2.2.1 _).1 rfl
  rw [heq] at d1
  exact Prod.ext (d1.1.symm.trans d2.1) (d1.2.symm.trans d2.2)

theorem mem_nearbyList_iff {w h c : Nat} (hw : 0 < w) (hc : c < w * h) (incl : Bool)
    (j : Nat) :
    j ∈ nearbyList w h c incl ↔ j < w * h ∧ (near8 w c j ∨ (incl = true ∧ j = c)) := by
  have hyh := div_lt_of_lt_mul hw hc
  have hxw := Nat.mod_lt c hw
  rw [nearbyList_eq_map_offs hw, List.mem_map]
  constructor
  · rintro ⟨p, hp, rfl⟩
    rw [mem_offs_iff hyh hxw] at hp
    obtain ⟨b1, b2, b3, b4, b5, b6, b7⟩ := hp
    have hd := (row_col_eq_iff hw p.1 p.2 b2 _).1 rfl
    refine ⟨pos_lt_total b1 b2, ?_⟩
    by_cases hcen : p.1 = c / w ∧ p.2 = c % w
    · right
      rcases b7 with hne | hincl
      · exact absurd hcen hne
      · refine ⟨hincl, ?_⟩
        rw [hcen.1, hcen.2]
        exact Nat.div_add_mod c w
    · left
      refine ⟨?_, ?_, ?_, ?_, ?_⟩
      · intro hjc
        have := (row_col_eq_iff hw p.1 p.2 b2 c).1 hjc
        exact hcen ⟨this.1.symm, this.2.symm⟩
      · rw [hd.1]; omega
      · rw [hd.1]; omega
      · rw [hd.2]; omega
      · rw [hd.2]; omega
  · rintro ⟨hj, hor⟩
    refine ⟨(j / w, j % w), ?_, Nat.div_add_mod j w⟩
    rw [mem_offs_iff hyh hxw]
    dsimp only
    have hjh := div_lt_of_lt_mul hw hj
    have hjw := Nat.mod_lt j hw
    rcases hor with hnear | ⟨hincl, rfl⟩
    · obtain ⟨hne, i1, i2, i3, i4⟩ := hnear
      refine ⟨hjh, hjw, by omega, by omega, by omega, by omega, Or.inl ?_⟩
      rintro ⟨e1, e2⟩
      exact hne (by
        conv_lhs => rw [← Nat.div_add_mod c w]
        conv_rhs => rw [← Nat.div_add_mod j w]
        rw [e1, e2])
    · exact ⟨hjh, hjw, by omega, by omega, by omega, by omega, Or.inr hincl⟩

theorem near8_symm {w a b : Nat} : near8 w a b ↔ near8 w b a := by
  unfold near8; omega

theorem mem_nearby_symm {w h c j : Nat} (hw : 0 < w) (hc : c < w * h) (hj : j < w * h) :
    (j ∈ nearbyList w h c false ↔ c ∈ nearbyList w h j false) := by
  rw [mem_nearbyList_iff hw hc, mem_nearbyList_iff hw hj]
  simp only [Bool.false_eq_true, false_and, or_false, hj, hc, true_and]
  exact near8_symm

theorem count_nearbyList {w h c : Nat} (hw : 0 < w) (hc : c < w * h) (incl : Bool)
    (j : Nat) :
    (nearbyList w h c incl).count j =
      if j ∈ nearbyList w h c incl then 1 else 0 := by
  split
  · exact List.count_eq_one_of_mem (nearbyList_nodup hw hc incl) ‹_›
  · exact List.count_eq_zero_of_not_mem ‹_›

end Minefield
